import Mathlib

/-
  Verification development for the APEX-ML orchestration core.

  Shallow embedding of the repository's score extraction, code execution,
  heuristic debugging, LLM-client JSON recovery, improvement loops
  (refinement inner loop, ensemble loop, initialization merge loop),
  best-solution selection, and the pipeline orchestrator's stage handling.

  Conventions:
  * Numeric scores are modeled exactly as rationals (ℚ); the Python code
    carries them as floats, but no claim here depends on rounding.
  * External effects (the LLM completion backend, the OS subprocess layer,
    the filesystem) are modeled as explicit oracle inputs, so that each
    embedded function is a pure function of its inputs.
  * Character classes are the ASCII fragments of Python's regex classes,
    which is what the repository's outputs exercise.
-/

namespace ApexML

/-- ASCII fragment of the regex whitespace class backslash-s used by
Python's re module: space, tab, newline, carriage return, vertical tab,
form feed. -/
def isPySpace (c : Char) : Bool :=
  c = ' ' || c = '\t' || c = '\n' || c = '\r' || c = Char.ofNat 11 || c = Char.ofNat 12

/-- Case-insensitive character equality, as used by re.IGNORECASE. -/
def lowerEq (a b : Char) : Bool :=
  a.toLower = b.toLower

/-- Case-insensitive test that the first list is a prefix of the second. -/
def prefixCI : List Char → List Char → Bool
  | [], _ => true
  | _ :: _, [] => false
  | a :: as, b :: bs => lowerEq a b && prefixCI as bs

/-- Split the optional leading sign character of the numeric group, the
regex sign?, from the rest. -/
def splitSign (l : List Char) : List Char × List Char :=
  match l with
  | c :: rest => if c = '+' || c = '-' then ([c], rest) else ([], l)
  | [] => ([], [])

/-- Greedy match of the unsigned part of the numeric capture group, the
regex digits* dot? digits+, at the start of cs1; the already matched sign
is prepended to the captured characters.  Returns none when the regex
cannot match (including after backtracking). -/
def matchNumCore (sign cs1 : List Char) : Option (List Char) :=
  let d1 := cs1.takeWhile Char.isDigit
  match cs1.dropWhile Char.isDigit with
  | '.' :: r2 =>
    let d2 := r2.takeWhile Char.isDigit
    if d2 ≠ [] then some (sign ++ d1 ++ '.' :: d2)
    else if d1 ≠ [] then some (sign ++ d1) else none
  | _ => if d1 ≠ [] then some (sign ++ d1) else none

/-- Greedy match of the numeric capture group of the repository's score
patterns, the regex sign? digits* dot? digits+, at the start of the
character list.  Returns the exactly captured characters, or none when the
regex cannot match at this position (including after backtracking). -/
def matchNum (cs : List Char) : Option (List Char) :=
  matchNumCore (splitSign cs).1 (splitSign cs).2

/-- Value of a list of decimal digit characters. -/
def digitsToNat (ds : List Char) : Nat :=
  ds.foldl (fun n c => 10 * n + (c.toNat - 48)) 0

/-- Exact rational value of a captured numeric literal of the shape
sign? digits* dot? digits+ (Python's float() of the captured group,
modeled exactly: the decimal value int.frac equals
(int * 10 ^ k + frac) / 10 ^ k). -/
def litToRat (l : List Char) : ℚ :=
  let p := (splitSign l).2
  let ip := p.takeWhile Char.isDigit
  let v : ℚ :=
    match p.dropWhile Char.isDigit with
    | '.' :: fp => mkRat (digitsToNat ip * 10 ^ fp.length + digitsToNat fp) (10 ^ fp.length)
    | _ => mkRat (digitsToNat ip) 1
  if (splitSign l).1 = ['-'] then -v else v

/-- re.search of a pattern of the shape <literal> backslash-s* (number
group), case-insensitively: scan left to right for the first position
where the literal matches and a numeric capture follows the skipped
whitespace; return the captured characters. -/
def scanPat (lit : List Char) : List Char → Option (List Char)
  | [] => none
  | c :: rest =>
    if prefixCI lit (c :: rest) then
      match matchNum (((c :: rest).drop lit.length).dropWhile isPySpace) with
      | some n => some n
      | none => scanPat lit rest
    else scanPat lit rest

/-- The primary marker literal of CodeExecutor._extract_score. -/
def markerLit : List Char :=
  "Final Validation Performance:".data

/-- The fallback heuristic pattern literals of CodeExecutor._extract_score,
in source order. -/
def fallbackLits : List (List Char) :=
  ["validation score:".data, "val_score:".data, "rmse:".data, "mae:".data,
   "accuracy:".data]

/-- First pattern of an ordered list that matches, returning its captured
numeric text. -/
def tryPats : List (List Char) → List Char → Option (List Char)
  | [], _ => none
  | p :: ps, text =>
    match scanPat p text with
    | some n => some n
    | none => tryPats ps text

/-- The captured numeric text of the first pattern of
CodeExecutor._extract_score that matches (marker pattern first, then the
fallback patterns, in source order). -/
def extract_capture (output : String) : Option (List Char) :=
  tryPats (markerLit :: fallbackLits) output.data

/-- Shallow embedding of CodeExecutor._extract_score: try the marker
pattern, then the fallback patterns, in order; return the first captured
numeric group's value, or none.  (The source wraps float() in a
try/except, but the captured group always satisfies float syntax, so the
except branch is unreachable.) -/
def extract_score (output : String) : Option ℚ :=
  (extract_capture output).map litToRat

/-- Bool test that an unsigned character list is a plain decimal literal
body, i.e. matches digits* dot? digits+ in full. -/
def plainBody (p : List Char) : Bool :=
  match p.dropWhile Char.isDigit with
  | [] => !p.isEmpty
  | '.' :: fp => !fp.isEmpty && fp.all Char.isDigit
  | _ => false

/-- Bool test that a character list is a plain decimal float literal
without an exponent part, i.e. matches sign? digits* dot? digits+ in
full. -/
def isPlainLit (l : List Char) : Bool :=
  plainBody (splitSign l).2

/-- Bool test that the text following a literal cannot extend the greedy
numeric match: it does not begin with a digit, and when the literal has no
decimal point it does not begin with a dot immediately followed by a
digit. -/
def postOk (lit post : List Char) : Bool :=
  (match post with
   | c :: _ => !c.isDigit
   | [] => true) &&
  (match post with
   | '.' :: d :: _ => lit.contains '.' || !d.isDigit
   | _ => true)

/-- Number of positions of the text where the pattern matches
case-insensitively; used to state that the marker occurs exactly once. -/
def countCI (pat : List Char) : List Char → Nat
  | [] => if prefixCI pat [] then 1 else 0
  | c :: rest => (if prefixCI pat (c :: rest) then 1 else 0) + countCI pat rest

/-- The contractual marker phrase, with its trailing space. -/
def markerStr : String := "Final Validation Performance: "

/-- Strict comparison under the global objective direction: a score s
beats the incumbent when it is strictly lower if lower_is_better, strictly
higher otherwise. -/
def betterThan (lower : Bool) (s incumbent : ℚ) : Bool :=
  if lower then s < incumbent else incumbent < s

/-- Comparison against an optional incumbent score: an undefined incumbent
is treated as the worst possible value, so any defined score beats it. -/
def betterOpt (lower : Bool) (s : ℚ) (incumbent : Option ℚ) : Bool :=
  match incumbent with
  | none => true
  | some b => betterThan lower s b

/-- The key order used by the Python list.sort calls with
reverse = not lower_is_better: ascending when lower_is_better, descending
otherwise. -/
def pyLe (lower : Bool) (a b : ℚ) : Bool :=
  if lower then a ≤ b else b ≤ a

/-- Stable insertion of an element into a sorted list, placing it before
the first element it compares less-or-equal to; together with pySort this
models Python's stable list.sort on a numeric key. -/
def insSortedBy {α : Type} (key : α → ℚ) (le : ℚ → ℚ → Bool) (x : α) :
    List α → List α
  | [] => [x]
  | y :: ys => if le (key x) (key y) then x :: y :: ys else y :: insSortedBy key le x ys

/-- Stable sort by a numeric key (insertion sort), modeling Python's
list.sort(key=..., reverse=...). -/
def pySort {α : Type} (key : α → ℚ) (le : ℚ → ℚ → Bool) : List α → List α
  | [] => []
  | x :: xs => insSortedBy key le x (pySort key le xs)

/-- The element the stable sort puts first: the earliest element with the
best key under the objective direction. -/
def firstBestBy {α : Type} (key : α → ℚ) (lower : Bool) : List α → Option α
  | [] => none
  | x :: xs =>
    match firstBestBy key lower xs with
    | none => some x
    | some m => if betterThan lower (key m) (key x) then some m else some x

/-- One recorded attempt of the refinement inner loop: the dict appended
to the improvements list (plan, code, score, success). -/
structure Improvement where
  plan : String
  code : String
  score : Option ℚ
  success : Bool
deriving DecidableEq

/-- The numeric sort key of an attempt (its score; attempts reaching the
sort have been filtered to defined scores). -/
def scoreKey (i : Improvement) : ℚ :=
  i.score.getD 0

/-- Lower-cased characters of a string, as Python's str.lower for the
ASCII fragment. -/
def lowerStr (s : String) : List Char :=
  s.data.map Char.toLower

/-- Python's case-insensitive substring test
needle.lower() in hay.lower(). -/
def isSubstrCI (needle hay : String) : Bool :=
  (List.range ((lowerStr hay).length + 1)).any
    (fun i => (lowerStr needle).isPrefixOf ((lowerStr hay).drop i))

/-- RefinementAgent._generate_refined_plan with the raw LLM completion as
an oracle input: the proposal is refused (none) when it is a
case-insensitive substring of any previously tried plan. -/
def generate_refined_plan (raw : String) (plans_tried : List String) : Option String :=
  if plans_tried.any (fun tried => isSubstrCI raw tried) then none else some raw

/-- Success flag and extracted score of one evaluation, as consumed by the
refinement inner loop (RefinementAgent._evaluate_code abstracted as an
oracle). -/
structure EvalOut where
  success : Bool
  score : Option ℚ
deriving DecidableEq

/-- Build the attempt record of one inner-loop iteration: implement the
plan (LLM oracle), evaluate the code (executor oracle), and record plan,
code, score and success, as _run_inner_loop does. -/
def innerAttempt (implement : Nat → String → String) (evaluate : Nat → String → EvalOut)
    (k : Nat) (plan : String) : Improvement :=
  let code := implement k plan
  let r := evaluate k code
  { plan := plan, code := code, score := r.score, success := r.success }

/-- The iteration part of RefinementAgent._run_inner_loop for iterations
1 .. inner_loop_rounds - 1: generate a refined plan, stop when the
proposal is refused, otherwise record the plan and the evaluated attempt. -/
def innerLoopGo (implement : Nat → String → String) (evaluate : Nat → String → EvalOut)
    (genRaw : Nat → List String → List Improvement → String) :
    Nat → Nat → List String → List Improvement → List String × List Improvement
  | 0, _, plans, imps => (plans, imps)
  | fuel + 1, k, plans, imps =>
    let raw := genRaw k plans imps
    match generate_refined_plan raw plans with
    | none => (plans, imps)
    | some plan =>
      let att := innerAttempt implement evaluate k plan
      innerLoopGo implement evaluate genRaw fuel (k + 1) (plans ++ [plan]) (imps ++ [att])

/-- The plans tried and the attempts history produced by
RefinementAgent._run_inner_loop: the initial plan is implemented and
evaluated first, then up to rounds - 1 refined plans are tried. -/
def run_inner_loop_attempts (rounds : Nat) (implement : Nat → String → String)
    (evaluate : Nat → String → EvalOut)
    (genRaw : Nat → List String → List Improvement → String)
    (initial_plan : String) : List String × List Improvement :=
  let att0 := innerAttempt implement evaluate 0 initial_plan
  innerLoopGo implement evaluate genRaw (rounds - 1) 1 [initial_plan] [att0]

/-- The valid-improvements filter of _run_inner_loop: attempts that
succeeded and have a defined score. -/
def validFilter (imps : List Improvement) : List Improvement :=
  imps.filter (fun i => i.success && i.score.isSome)

/-- The head of the sorted valid attempts: the best attempt of the inner
loop, or none when no attempt is valid. -/
def innerBest (lower : Bool) (imps : List Improvement) : Option Improvement :=
  (pySort scoreKey (pyLe lower) (validFilter imps)).head?

/-- Result of the inner-loop best selection, mirroring the returned dict:
either no improvement, or the improving code, score and plan. -/
inductive InnerResult
  | noImprovement
  | improvedTo (code : String) (score : ℚ) (plan : String)
deriving DecidableEq

/-- The selection tail of RefinementAgent._run_inner_loop: filter the
valid attempts, stable-sort them by score in the objective direction,
take the first, and report improvement only when it strictly beats the
base score. -/
def run_inner_loop_select (lower : Bool) (base_score : ℚ) (imps : List Improvement) :
    InnerResult :=
  match innerBest lower imps with
  | none => .noImprovement
  | some best =>
    if betterThan lower (scoreKey best) base_score then
      .improvedTo best.code (scoreKey best) best.plan
    else .noImprovement

/-- The final incumbent of one refinement step: the caller keeps the base
code and score unless the inner loop reports an improvement. -/
def innerFinal (lower : Bool) (base_code : String) (base_score : ℚ)
    (imps : List Improvement) : String × ℚ :=
  match run_inner_loop_select lower base_score imps with
  | .noImprovement => (base_code, base_score)
  | .improvedTo c s _ => (c, s)

/-- The spec's incumbent-replacement rule, one attempt at a time: replace
the incumbent iff the attempt succeeded, its score is defined, and its
score strictly beats the incumbent; otherwise leave the incumbent
unchanged.  Stated from the spec's words, to be compared with the
loop implementations. -/
def specIncumbentStep (lower : Bool) (cur : String × ℚ) (a : Improvement) : String × ℚ :=
  match a.score with
  | some s => if a.success && betterThan lower s cur.2 then (a.code, s) else cur
  | none => cur

/-- Outcome of evaluating one merged solution in
InitializationAgent._merge_solutions (code from the merge LLM oracle,
success flag and score from the executor). -/
structure MergeAttempt where
  code : String
  success : Bool
  score : Option ℚ
deriving DecidableEq

/-- The update of one iteration of the initialization merge loop, as in
the source: accept the merged code when the evaluation succeeded, the
score is defined and strictly better than the current score. -/
def mergeStep (lower : Bool) (cur : String × ℚ) (r : MergeAttempt) : String × ℚ :=
  match r.success, r.score with
  | true, some s => if betterThan lower s cur.2 then (r.code, s) else cur
  | _, _ => cur

/-- The initialization merge loop over the evaluated merge attempts
(indices 1 .. of _merge_solutions): only the incumbent pair is threaded
through; no attempt history is kept. -/
def merge_loop (lower : Bool) (attempts : List MergeAttempt) (cur : String × ℚ) :
    String × ℚ :=
  attempts.foldl (mergeStep lower) cur

/-- The spec's incumbent-replacement rule for merge attempts, stated from
the spec's words. -/
def specMergeStep (lower : Bool) (cur : String × ℚ) (r : MergeAttempt) : String × ℚ :=
  match r.score with
  | some s => if r.success && betterThan lower s cur.2 then (r.code, s) else cur
  | none => cur

/-- One recorded iteration of the ensemble loop, mirroring the dict built
by EnsembleAgent._implement_and_evaluate_plan (plan, code, success,
score). -/
structure IterAttempt where
  plan : String
  code : String
  success : Bool
  score : Option ℚ
deriving DecidableEq

/-- The best-update of one ensemble-loop iteration, as in EnsembleAgent.run:
when the attempt succeeded with a defined score, accept it outright if the
incumbent score is undefined, else accept it only when strictly better. -/
def ensembleStep (lower : Bool) (best : Option String × Option ℚ) (it : IterAttempt) :
    Option String × Option ℚ :=
  match it.success, it.score with
  | true, some s =>
    match best.2 with
    | none => (some it.code, some s)
    | some bs => if betterThan lower s bs then (some it.code, some s) else best
  | _, _ => best

/-- The spec's replacement rule for the ensemble loop, stated from the
spec's words: replace iff the attempt succeeded, its score is defined and
beats the (possibly undefined, hence worst) incumbent. -/
def specStepOpt (lower : Bool) (best : Option String × Option ℚ) (it : IterAttempt) :
    Option String × Option ℚ :=
  match it.score with
  | some s => if it.success && betterOpt lower s best.2 then (some it.code, some s) else best
  | none => best

/-- EnsembleAgent._generate_refined_plan with the raw LLM completion as an
oracle input: none when no previous attempt succeeded with a score, or
when the proposal is a case-insensitive substring of a previous plan. -/
def ensemble_generate_refined_plan (raw : String) (previous_plans : List String)
    (previous_results : List IterAttempt) : Option String :=
  let plans_and_scores := (previous_plans.zip previous_results).filter
    (fun pr => pr.2.success && pr.2.score.isSome)
  if plans_and_scores.isEmpty then none
  else if previous_plans.any (fun p => isSubstrCI raw p) then none
  else some raw

/-- Build the recorded iteration of one ensemble plan: the implement-and-
evaluate step abstracted over the LLM and executor oracle. -/
def implementAndEvaluate (implEval : Nat → String → String × Bool × Option ℚ)
    (k : Nat) (plan : String) : IterAttempt :=
  let r := implEval k plan
  { plan := plan, code := r.1, success := r.2.1, score := r.2.2 }

/-- Iterations 1 .. ensemble_loop_rounds of EnsembleAgent.run: generate a
refined plan (stopping when refused), record the plan, record the
implemented-and-evaluated attempt, and update the best pair. -/
def ensembleLoopGo (lower : Bool) (implEval : Nat → String → String × Bool × Option ℚ)
    (refinedRaw : Nat → List String → List IterAttempt → String) :
    Nat → Nat → List String → List IterAttempt → Option String × Option ℚ →
    List String × List IterAttempt × (Option String × Option ℚ)
  | 0, _, plans, iters, best => (plans, iters, best)
  | fuel + 1, k, plans, iters, best =>
    let raw := refinedRaw k plans iters
    match ensemble_generate_refined_plan raw plans iters with
    | none => (plans, iters, best)
    | some plan =>
      let att := implementAndEvaluate implEval k plan
      ensembleLoopGo lower implEval refinedRaw fuel (k + 1) (plans ++ [plan])
        (iters ++ [att]) (ensembleStep lower best att)

/-- The ensemble loop of EnsembleAgent.run: the initial plan is
implemented and evaluated unconditionally and seeds the best pair (its
code even on failure, its possibly undefined score), then up to rounds
refined plans are tried. -/
def ensemble_loop (lower : Bool) (rounds : Nat)
    (implEval : Nat → String → String × Bool × Option ℚ)
    (refinedRaw : Nat → List String → List IterAttempt → String)
    (initialPlan : String) :
    List String × List IterAttempt × (Option String × Option ℚ) :=
  let att0 := implementAndEvaluate implEval 0 initialPlan
  ensembleLoopGo lower implEval refinedRaw rounds 1 [initialPlan] [att0]
    (some att0.code, att0.score)

/-- One refined-solutions entry consumed by EnsembleAgent.run. -/
structure SolutionInput where
  final_code : Option String
  final_score : Option ℚ
deriving DecidableEq

/-- Python truthiness of an optional string: false for None and for the
empty string. -/
def truthyStr (s : Option String) : Bool :=
  match s with
  | none => false
  | some str => !(str = "")

/-- The valid-solutions filter of EnsembleAgent.run: a truthy final_code
and a defined final_score. -/
def validSolution (s : SolutionInput) : Bool :=
  truthyStr s.final_code && s.final_score.isSome

/-- Python's min over a list of scores (none on the empty list, where
Python raises ValueError); the first minimal element wins ties. -/
def pyMin : List ℚ → Option ℚ
  | [] => none
  | x :: xs => some (xs.foldl (fun a b => if b < a then b else a) x)

/-- Python's max over a list of scores (none on the empty list); the first
maximal element wins ties. -/
def pyMax : List ℚ → Option ℚ
  | [] => none
  | x :: xs => some (xs.foldl (fun a b => if a < b then b else a) x)

/-- The best individual input score, min when lower_is_better else max, as
computed by EnsembleAgent.run. -/
def individualBest (lower : Bool) (scores : List ℚ) : Option ℚ :=
  if lower then pyMin scores else pyMax scores

/-- The results record of a completed EnsembleAgent.run (the keys of the
returned dict that the claims refer to). -/
structure EnsembleResults where
  num_solutions : Nat
  input_scores : List ℚ
  ensemble_iterations : List IterAttempt
  best_ensemble_code : Option String
  best_ensemble_score : Option ℚ
  ensemble_improved : Option Bool
  improvement_percentage : Option ℚ
deriving DecidableEq

/-- Return value of EnsembleAgent.run: either the early
success=False/message dict returned when fewer than two valid solutions
exist, or the completed results record. -/
inductive EnsembleRunResult
  | insufficient (message : String)
  | completed (r : EnsembleResults)
deriving DecidableEq

/-- Shallow embedding of EnsembleAgent.run over solution inputs and the
LLM/executor oracles.  An uncaught Python exception is modeled as
Except.error: ZeroDivisionError when the improvement percentage divides by
a zero best individual score (and, unreachably, ValueError for min/max of
an empty list). -/
def ensemble_run (lower : Bool) (rounds : Nat) (sols : List SolutionInput)
    (initialPlan : String) (implEval : Nat → String → String × Bool × Option ℚ)
    (refinedRaw : Nat → List String → List IterAttempt → String) :
    Except String EnsembleRunResult :=
  let valid := sols.filter validSolution
  if valid.length < 2 then
    .ok (.insufficient "Insufficient solutions for ensemble")
  else
    let input_scores := valid.map (fun s => s.final_score.getD 0)
    let lp := ensemble_loop lower rounds implEval refinedRaw initialPlan
    match lp.2.2.2 with
    | none =>
      .ok (.completed { num_solutions := valid.length,
                        input_scores := input_scores,
                        ensemble_iterations := lp.2.1,
                        best_ensemble_code := lp.2.2.1,
                        best_ensemble_score := none,
                        ensemble_improved := none,
                        improvement_percentage := none })
    | some bs =>
      match individualBest lower input_scores with
      | none => .error "ValueError: min() arg is an empty sequence"
      | some ib =>
        if ib = 0 then .error "ZeroDivisionError: float division by zero"
        else
          .ok (.completed { num_solutions := valid.length,
                            input_scores := input_scores,
                            ensemble_iterations := lp.2.1,
                            best_ensemble_code := lp.2.2.1,
                            best_ensemble_score := some bs,
                            ensemble_improved := some (betterThan lower bs ib),
                            improvement_percentage := some |(bs - ib) / ib * 100| })

/-- One refinement result consumed by SubmissionAgent._select_best_solution. -/
structure RefinedResult where
  task_id : Nat
  final_code : Option String
  final_score : Option ℚ
deriving DecidableEq

/-- The ensemble-result fields consumed by
SubmissionAgent._select_best_solution. -/
structure EnsembleLite where
  best_ensemble_code : Option String
  best_ensemble_score : Option ℚ
deriving DecidableEq

/-- One candidate dict of _select_best_solution: code, score and source
label. -/
structure SubCandidate where
  code : String
  score : Option ℚ
  src : String
deriving DecidableEq

/-- The numeric sort key of a submission candidate. -/
def candKey (c : SubCandidate) : ℚ :=
  c.score.getD 0

/-- The candidate list built by _select_best_solution: refined results
with a truthy final_code and defined final_score, then the ensemble
solution when its code is truthy and its score defined. -/
def select_candidates (refined : List RefinedResult) (ens : Option EnsembleLite) :
    List SubCandidate :=
  (refined.filterMap (fun r =>
    if truthyStr r.final_code && r.final_score.isSome then
      some { code := r.final_code.getD "", score := r.final_score,
             src := "refined_agent_" ++ toString r.task_id }
    else none))
  ++ (match ens with
      | some e =>
        if truthyStr e.best_ensemble_code then
          if e.best_ensemble_score.isSome then
            [{ code := e.best_ensemble_code.getD "", score := e.best_ensemble_score,
               src := "ensemble" }]
          else []
        else []
      | none => [])

/-- Shallow embedding of SubmissionAgent._select_best_solution: build the
candidates, return none when empty, else stable-sort by score in the
objective direction and return the first. -/
def select_best_solution (lower : Bool) (refined : List RefinedResult)
    (ens : Option EnsembleLite) : Option SubCandidate :=
  (pySort candKey (pyLe lower) (select_candidates refined ens)).head?

/-- Host-level outcome of the subprocess.run call inside
CodeExecutor.execute_code. -/
inductive RunOutcome
  | completed (returncode : Int) (out err : String)
  | timedOut
  | spawnError (msg : String)
deriving DecidableEq

/-- Host-level outcome of persisting the source file (the open/write that
precedes the try block of execute_code). -/
inductive WriteOutcome
  | ok
  | failed (msg : String)
deriving DecidableEq

/-- The EvaluationResult dict of CodeExecutor.execute_code (wall-clock
duration and file path omitted: no claim refers to them). -/
structure EvalResult where
  success : Bool
  returncode : Int
  stdout : String
  stderr : String
  score : Option ℚ
  generated_files : List String
deriving DecidableEq

/-- Shallow embedding of CodeExecutor.execute_code over the host oracle
outcomes: the initial file write is outside the try block, so its failure
propagates (Except.error); every subprocess outcome — completion, timeout,
spawn failure — is converted into an EvaluationResult. -/
def execute_code (w : WriteOutcome) (r : RunOutcome) (timeout : Nat)
    (genFiles : List String) : Except String EvalResult :=
  match w with
  | .failed msg => .error msg
  | .ok =>
    match r with
    | .completed rc out err =>
      .ok { success := rc == 0, returncode := rc, stdout := out, stderr := err,
            score := extract_score out, generated_files := genFiles }
    | .timedOut =>
      .ok { success := false, returncode := -1, stdout := "",
            stderr := "Execution timed out after " ++ toString timeout ++ " seconds",
            score := none, generated_files := [] }
    | .spawnError msg =>
      .ok { success := false, returncode := -1, stdout := "",
            stderr := "Execution error: " ++ msg, score := none, generated_files := [] }

/-- Python's case-sensitive substring test needle in hay. -/
def containsSubstr (needle hay : String) : Bool :=
  (List.range (hay.data.length + 1)).any
    (fun i => needle.data.isPrefixOf (hay.data.drop i))

/-- The regex word-character class (ASCII fragment). -/
def isWordChar (c : Char) : Bool :=
  c.isAlphanum || c = '_'

/-- re.search of a pattern of the shape <literal> (word+) <literal>, as in
the debugger's "No module named" and "name ... is not defined" captures:
scan for the first position where the prefix literal matches, a nonempty
word follows, and the suffix literal follows the word. -/
def findCapture (pre post : List Char) : List Char → Option (List Char)
  | [] => none
  | c :: rest =>
    if pre.isPrefixOf (c :: rest) then
      let after := (c :: rest).drop pre.length
      let w := after.takeWhile isWordChar
      if !w.isEmpty && post.isPrefixOf (after.drop w.length) then some w
      else findCapture pre post rest
    else findCapture pre post rest

/-- The error-classification dispatch of CodeExecutor.debug_code: match
the error text against the known exception categories in source order and
apply the corresponding patcher (the three deterministic patchers
_add_import, _fix_undefined_name and _fix_file_paths are abstracted as
string-transformer parameters). -/
def debug_fix (addImport fixName : String → String → String)
    (fixPaths : String → String) (code error : String) : String :=
  if containsSubstr "ModuleNotFoundError" error then
    match findCapture ("No module named '").data ("'").data error.data with
    | some m => addImport code (String.mk m)
    | none => code
  else if containsSubstr "NameError" error then
    match findCapture ("name '").data ("' is not defined").data error.data with
    | some n => fixName code (String.mk n)
    | none => code
  else if containsSubstr "FileNotFoundError" error then
    fixPaths code
  else code

/-- The executed attempts of CodeExecutor.debug_code, in order: each
iteration patches the code from the current error, re-executes (executor
as an oracle over the attempt index), and stops after the first success or
when the attempt budget is exhausted. -/
def debugAttempts (execOut : Nat → String → EvalResult) (fix : String → String → String) :
    Nat → Nat → String → String → List (String × EvalResult)
  | 0, _, _, _ => []
  | fuel + 1, attempt, code, error =>
    let code' := fix code error
    let r := execOut attempt code'
    (code', r) ::
      (if r.success then [] else debugAttempts execOut fix fuel (attempt + 1) code' r.stderr)

/-- Shallow embedding of CodeExecutor.debug_code: the returned pair
(final code, final EvaluationResult) is the last executed attempt; none
models the max_attempts = 0 edge where the source would raise NameError
on the unbound result variable. -/
def debug_code (execOut : Nat → String → EvalResult)
    (addImport fixName : String → String → String) (fixPaths : String → String)
    (code error : String) (max_attempts : Nat) : Option (String × EvalResult) :=
  (debugAttempts execOut (debug_fix addImport fixName fixPaths) max_attempts 0 code error).getLast?

/-- The JSON-substring fallback of
OpenRouterClient.get_structured_output: the DOTALL regex brace .* brace
matches from the first opening brace to the last closing brace when the
first opening brace precedes the last closing brace. -/
def findJsonSubstr (s : String) : Option String :=
  let l := s.data
  match l.findIdx? (fun c => c = Char.ofNat 123) with
  | none => none
  | some i =>
    match l.reverse.findIdx? (fun c => c = Char.ofNat 125) with
    | none => none
    | some jr =>
      let j := l.length - 1 - jr
      if i < j then some (String.mk ((l.drop i).take (j - i + 1))) else none

/-- The error raised by get_structured_output: the uncaught
json.JSONDecodeError of the fallback parse, or the explicit ValueError
when no JSON substring is found (both are ValueError subclasses in
Python). -/
inductive JsonErr
  | decodeError
  | valueError (msg : String)
deriving DecidableEq

/-- Shallow embedding of OpenRouterClient.get_structured_output over the
raw LLM response, with json.loads abstracted as a parser oracle: return
the parse of the response when it is valid; otherwise locate a JSON
substring and return its parse; otherwise raise. -/
def get_structured_output {α : Type} (loads : String → Option α) (response : String) :
    Except JsonErr α :=
  match loads response with
  | some v => .ok v
  | none =>
    match findJsonSubstr response with
    | some s =>
      match loads s with
      | some v => .ok v
      | none => .error .decodeError
    | none => .error (.valueError ("Could not parse JSON from response: " ++ response))

/-- The message and traceback text of a stage-level exception. -/
structure StageErr where
  msg : String
  tb : String
deriving DecidableEq

/-- The pipeline results dict of OneAboveAll.run as persisted by
_save_results: the per-stage records accumulated so far and the optional
error/traceback fields. -/
structure RunResults (α : Type) where
  stages : List (String × α)
  errorInfo : Option (String × String)
deriving DecidableEq

/-- Shallow embedding of the try/except of OneAboveAll.run over the
sequence of stage outcomes: stages run in order, each completed stage
appends its record to the results; the first raising stage stops the
pipeline, and the except block records its message and traceback while
keeping all earlier stage records. -/
def pipeline_run {α : Type} : List (String × Except StageErr α) → RunResults α
  | [] => { stages := [], errorInfo := none }
  | (name, outcome) :: rest =>
    match outcome with
    | .ok r =>
      let tail := pipeline_run rest
      { stages := (name, r) :: tail.stages, errorInfo := tail.errorInfo }
    | .error e => { stages := [], errorInfo := some (e.msg, e.tb) }

/-- Concrete implement oracle for the end-to-end inner-loop instance. -/
def demoImplement : Nat → String → String :=
  fun k _ => if k = 0 then "codeA" else "codeB"

/-- Concrete evaluate oracle: iteration 0 scores 0.60, iteration 1 scores
0.40, both successful. -/
def demoEvaluate : Nat → String → EvalOut :=
  fun k _ => { success := true, score := some (if k = 0 then mkRat 3 5 else mkRat 2 5) }

/-- Concrete plan-generation oracle proposing a fresh plan. -/
def demoGenRaw : Nat → List String → List Improvement → String :=
  fun _ _ _ => "try plan B"

/-- Concrete executor oracle for the debugger witness: the first attempt
fails with a NameError, the second succeeds. -/
def demoExec : Nat → String → EvalResult :=
  fun k _ =>
    if k = 0 then
      { success := false, returncode := 1, stdout := "",
        stderr := "NameError: name 'np' is not defined", score := none,
        generated_files := [] }
    else
      { success := true, returncode := 0, stdout := "done", stderr := "",
        score := none, generated_files := [] }

/-- Concrete missing-import patcher for the debugger witness. -/
def demoAddImport : String → String → String :=
  fun code m => "import " ++ m ++ "\n" ++ code

/-- Concrete undefined-name patcher for the debugger witness. -/
def demoFixName : String → String → String :=
  fun code n => "from lib import " ++ n ++ "\n" ++ code

/-- Concrete file-path patcher for the debugger witness. -/
def demoFixPaths : String → String :=
  fun code => code

/-- Concrete toy JSON decoder for the structured-output witness: accepts
exactly one object text. -/
def demoLoads : String → Option Nat :=
  fun s => if s = "\x7b1\x7d" then some 1 else none

/-- Concrete executor oracle that always succeeds. -/
def demoExecOK : Nat → String → EvalResult :=
  fun _ _ =>
    { success := true, returncode := 0, stdout := "done", stderr := "",
      score := none, generated_files := [] }

/-- Concrete executor oracle that always fails with an unclassified
error. -/
def demoExecFail : Nat → String → EvalResult :=
  fun _ _ =>
    { success := false, returncode := 1, stdout := "",
      stderr := "SyntaxError: invalid syntax", score := none, generated_files := [] }

/-- Concrete implement-and-evaluate oracle for the ensemble loop. -/
def demoImplEval : Nat → String → String × Bool × Option ℚ :=
  fun _ _ => ("ensemble code", true, some 1)

/-- Concrete refined-plan oracle proposing a fresh ensemble plan. -/
def demoRefinedRaw : Nat → List String → List IterAttempt → String :=
  fun _ _ _ => "weighted average of predictions"

example : extract_capture "Final Validation Performance: 0.8345\n"
    = some ['0', '.', '8', '3', '4', '5'] := by decide

example : extract_score "Final Validation Performance: 0.8345\n" = some (mkRat 8345 10000) := by
  decide

example : extract_score "no metrics here" = none := by decide

example : extract_score "Final Validation Performance: 1e5" = some 1 := by decide

example : extract_score "some text rmse: 3 end" = some 3 := by decide

theorem lowerEq_refl (a : Char) : lowerEq a a = true := by
  simp [lowerEq]

theorem prefixCI_append_self (xs ys : List Char) : prefixCI xs (xs ++ ys) = true := by
  induction xs with
  | nil => rfl
  | cons a as ih => simp [prefixCI, lowerEq_refl, ih]

theorem countCI_pos (pat pre rest : List Char) :
    1 ≤ countCI pat (pre ++ (pat ++ rest)) := by
  induction pre with
  | nil =>
    cases pat with
    | nil =>
      cases rest with
      | nil => simp [countCI, prefixCI]
      | cons c r => simp [countCI, prefixCI]
    | cons a as =>
      have h : prefixCI (a :: as) ((a :: as) ++ rest) = true := prefixCI_append_self _ _
      simp only [List.nil_append, List.cons_append] at *
      simp [countCI, h]
  | cons c pre' ih =>
    have h : countCI pat ((c :: pre') ++ (pat ++ rest)) =
        (if prefixCI pat (c :: (pre' ++ (pat ++ rest))) then 1 else 0) +
          countCI pat (pre' ++ (pat ++ rest)) := by
      simp [countCI]
    rw [h]
    by_cases hp : prefixCI pat (c :: (pre' ++ (pat ++ rest))) = true
    · rw [if_pos hp]
      omega
    · rw [if_neg hp]
      omega

theorem scanPat_append (pat pre rest : List Char) (n : List Char)
    (hpat : pat ≠ [])
    (huniq : countCI pat (pre ++ (pat ++ rest)) = 1)
    (hnum : matchNum (rest.dropWhile isPySpace) = some n) :
    scanPat pat (pre ++ (pat ++ rest)) = some n := by
  induction pre with
  | nil =>
    cases pat with
    | nil => exact absurd rfl hpat
    | cons a as =>
      have hp : prefixCI (a :: as) (a :: (as ++ rest)) = true := by
        have h0 := prefixCI_append_self (a :: as) rest
        simp only [List.cons_append] at h0
        exact h0
      have hd : (a :: (as ++ rest)).drop (a :: as).length = rest := by
        have h0 := List.drop_left (a :: as) rest
        simp only [List.cons_append] at h0
        exact h0
      simp only [List.nil_append, List.cons_append]
      simp [scanPat, hp, hd, hnum]
  | cons c pre' ih =>
    have hpos := countCI_pos pat pre' rest
    simp only [List.cons_append] at huniq ⊢
    rw [countCI] at huniq
    by_cases hp : prefixCI pat (c :: (pre' ++ (pat ++ rest))) = true
    · rw [hp] at huniq
      simp at huniq
      omega
    · have hp' : prefixCI pat (c :: (pre' ++ (pat ++ rest))) = false :=
        Bool.eq_false_iff.mpr hp
      rw [hp'] at huniq
      simp at huniq
      simp [scanPat, hp']
      exact ih huniq

theorem takeWhile_append_all {p : Char → Bool} {xs : List Char} (ys : List Char)
    (h : ∀ x ∈ xs, p x = true) :
    (xs ++ ys).takeWhile p = xs ++ ys.takeWhile p := by
  induction xs with
  | nil => simp
  | cons a as ih =>
    have ha := h a (by simp)
    simp only [List.cons_append, List.takeWhile_cons, ha, if_true]
    rw [ih (fun x hx => h x (by simp [hx]))]

theorem dropWhile_append_all {p : Char → Bool} {xs : List Char} (ys : List Char)
    (h : ∀ x ∈ xs, p x = true) :
    (xs ++ ys).dropWhile p = ys.dropWhile p := by
  induction xs with
  | nil => simp
  | cons a as ih =>
    have ha := h a (by simp)
    simp only [List.cons_append, List.dropWhile_cons, ha, if_true]
    exact ih (fun x hx => h x (by simp [hx]))

theorem takeWhile_eq_nil_of_head {p : Char → Bool} {l : List Char}
    (h : ∀ c, l.head? = some c → p c = false) : l.takeWhile p = [] := by
  cases l with
  | nil => rfl
  | cons a t => simp [List.takeWhile_cons, h a rfl]

theorem dropWhile_eq_self_of_head {p : Char → Bool} {l : List Char}
    (h : ∀ c, l.head? = some c → p c = false) : l.dropWhile p = l := by
  cases l with
  | nil => rfl
  | cons a t => simp [List.dropWhile_cons, h a rfl]

theorem not_sign_of_digit {c : Char} (h : c.isDigit = true) :
    (c = '+' || c = '-') = false := by
  simp only [Bool.or_eq_false_iff, decide_eq_false_iff_not]
  constructor <;> rintro rfl <;> exact absurd h (by decide)

theorem matchNumCore_int (sign ip post : List Char)
    (hip : ip ≠ [])
    (hipd : ∀ x ∈ ip, Char.isDigit x = true)
    (hp1 : ∀ c, post.head? = some c → c.isDigit = false)
    (hp2 : ∀ d t, post = '.' :: d :: t → d.isDigit = false) :
    matchNumCore sign (ip ++ post) = some (sign ++ ip) := by
  have hd1 : (ip ++ post).takeWhile Char.isDigit = ip := by
    rw [takeWhile_append_all post hipd, takeWhile_eq_nil_of_head hp1, List.append_nil]
  have hr1 : (ip ++ post).dropWhile Char.isDigit = post := by
    rw [dropWhile_append_all post hipd, dropWhile_eq_self_of_head hp1]
  simp only [matchNumCore, hd1, hr1]
  cases post with
  | nil => simp [hip]
  | cons c t =>
    by_cases hc : c = '.'
    · subst hc
      have hd2 : t.takeWhile Char.isDigit = [] := by
        cases t with
        | nil => rfl
        | cons d t' => simp [List.takeWhile_cons, hp2 d t' rfl]
      simp [hd2, hip]
    · split
      · rename_i r2 heq
        have : c = '.' := by
          have h0 := congrArg List.head? heq
          simpa using h0
        exact absurd this hc
      · simp [hip]

theorem matchNumCore_frac (sign ip fp post : List Char)
    (hipd : ∀ x ∈ ip, Char.isDigit x = true)
    (hfp : fp ≠ [])
    (hfpd : ∀ x ∈ fp, Char.isDigit x = true)
    (hp1 : ∀ c, post.head? = some c → c.isDigit = false) :
    matchNumCore sign (ip ++ '.' :: (fp ++ post)) = some (sign ++ ip ++ '.' :: fp) := by
  have hd1 : (ip ++ '.' :: (fp ++ post)).takeWhile Char.isDigit = ip := by
    rw [takeWhile_append_all _ hipd]
    simp [List.takeWhile_cons]
  have hr1 : (ip ++ '.' :: (fp ++ post)).dropWhile Char.isDigit = '.' :: (fp ++ post) := by
    rw [dropWhile_append_all _ hipd]
    simp [List.dropWhile_cons]
  have hd2 : (fp ++ post).takeWhile Char.isDigit = fp := by
    rw [takeWhile_append_all post hfpd, takeWhile_eq_nil_of_head hp1, List.append_nil]
  simp only [matchNumCore, hd1, hr1]
  simp [hd2, hfp]

theorem matchNumCore_plain (sign p post : List Char)
    (hp : plainBody p = true)
    (hp1 : ∀ c, post.head? = some c → c.isDigit = false)
    (hp2 : ∀ d t, post = '.' :: d :: t → '.' ∈ p ∨ d.isDigit = false) :
    matchNumCore sign (p ++ post) = some (sign ++ p) := by
  unfold plainBody at hp
  rcases hdw : p.dropWhile Char.isDigit with _ | ⟨c, fpr⟩
  · rw [hdw] at hp
    have hpeq : p.takeWhile Char.isDigit = p := by
      conv_rhs => rw [← List.takeWhile_append_dropWhile (p := Char.isDigit) (l := p)]
      rw [hdw, List.append_nil]
    have hpd : ∀ x ∈ p, Char.isDigit x = true := by
      intro x hx
      exact List.mem_takeWhile_imp (hpeq ▸ hx)
    have hpne : p ≠ [] := by
      intro h0
      rw [h0] at hp
      exact absurd hp (by decide)
    have hnodot : ∀ d t, post = '.' :: d :: t → d.isDigit = false := by
      intro d t h0
      rcases hp2 d t h0 with hdot | h1
      · exact absurd (hpd '.' hdot) (by decide)
      · exact h1
    exact matchNumCore_int sign p post hpne hpd hp1 hnodot
  · by_cases hc : c = '.'
    · subst hc
      rw [hdw] at hp
      have hp' : (!fpr.isEmpty && fpr.all Char.isDigit) = true := hp
      rw [Bool.and_eq_true] at hp'
      obtain ⟨hne, hall⟩ := hp'
      have hfpne : fpr ≠ [] := by
        intro h0
        rw [h0] at hne
        exact absurd hne (by decide)
      have hfpd : ∀ x ∈ fpr, Char.isDigit x = true := by
        intro x hx
        exact List.all_eq_true.mp hall x hx
      have hsplit : p = p.takeWhile Char.isDigit ++ '.' :: fpr := by
        conv_lhs => rw [← List.takeWhile_append_dropWhile (p := Char.isDigit) (l := p)]
        rw [hdw]
      have hipd : ∀ x ∈ p.takeWhile Char.isDigit, Char.isDigit x = true :=
        fun x hx => List.mem_takeWhile_imp hx
      have hgoal := matchNumCore_frac sign (p.takeWhile Char.isDigit) fpr post hipd hfpne hfpd hp1
      calc matchNumCore sign (p ++ post)
          = matchNumCore sign (p.takeWhile Char.isDigit ++ '.' :: (fpr ++ post)) := by
            conv_lhs => rw [hsplit]
            simp [List.append_assoc]
        _ = some (sign ++ p.takeWhile Char.isDigit ++ '.' :: fpr) := hgoal
        _ = some (sign ++ p) := by
            conv_rhs => rw [hsplit]
            simp [List.append_assoc]
    · rw [hdw] at hp
      exfalso
      split at hp
      · rename_i heq
        exact absurd heq (by simp)
      · rename_i fp heq
        have : c = '.' := by
          have h0 := congrArg List.head? heq
          simpa using h0
        exact absurd this hc
      · simp at hp

theorem matchNum_plain (lit post : List Char)
    (hl : isPlainLit lit = true)
    (hpost : postOk lit post = true) :
    matchNum (lit ++ post) = some lit := by
  unfold postOk at hpost
  rw [Bool.and_eq_true] at hpost
  obtain ⟨hpostA, hpostB⟩ := hpost
  have hp1 : ∀ c, post.head? = some c → c.isDigit = false := by
    intro c h0
    cases post with
    | nil => simp at h0
    | cons a t =>
      simp only [List.head?_cons, Option.some.injEq] at h0
      subst h0
      simpa using hpostA
  have hp2lit : ∀ d t, post = '.' :: d :: t → '.' ∈ lit ∨ d.isDigit = false := by
    intro d t h0
    subst h0
    rcases Bool.or_eq_true_iff.mp hpostB with h1 | h1
    · exact Or.inl (List.elem_iff.mp h1)
    · right
      simpa using h1
  cases lit with
  | nil => exact absurd hl (by decide)
  | cons f rest =>
    by_cases hf : (f = '+' || f = '-') = true
    · have hs1 : splitSign (f :: rest) = ([f], rest) := by
        simp [splitSign, hf]
      have hs2 : splitSign ((f :: rest) ++ post) = ([f], rest ++ post) := by
        simp [splitSign, hf]
      rw [isPlainLit, hs1] at hl
      have hp2 : ∀ d t, post = '.' :: d :: t → '.' ∈ rest ∨ d.isDigit = false := by
        intro d t h0
        rcases hp2lit d t h0 with h1 | h1
        · rcases List.mem_cons.mp h1 with h2 | h2
          · exfalso
            rcases Bool.or_eq_true_iff.mp hf with h3 | h3 <;>
              rw [decide_eq_true_eq] at h3 <;> rw [h3] at h2 <;> exact absurd h2 (by decide)
          · exact Or.inl h2
        · exact Or.inr h1
      rw [matchNum, hs2]
      have h0 := matchNumCore_plain [f] rest post hl hp1 hp2
      simpa using h0
    · have hf' : (f = '+' || f = '-') = false := Bool.eq_false_iff.mpr hf
      have hs2 : splitSign ((f :: rest) ++ post) = ([], (f :: rest) ++ post) := by
        simp [splitSign, hf']
      have hs1 : splitSign (f :: rest) = ([], f :: rest) := by
        simp [splitSign, hf']
      rw [isPlainLit, hs1] at hl
      rw [matchNum, hs2]
      have h0 := matchNumCore_plain [] (f :: rest) post hl hp1 hp2lit
      simpa using h0

theorem not_space_of_digit {c : Char} (h : c.isDigit = true) : isPySpace c = false := by
  simp only [isPySpace, Bool.or_eq_false_iff, decide_eq_false_iff_not]
  refine ⟨⟨⟨⟨⟨?_, ?_⟩, ?_⟩, ?_⟩, ?_⟩, ?_⟩ <;> rintro rfl <;> exact absurd h (by decide)

theorem plain_head (lit : List Char) (hl : isPlainLit lit = true) :
    ∃ f rest, lit = f :: rest ∧ isPySpace f = false := by
  cases lit with
  | nil => exact absurd hl (by decide)
  | cons f rest =>
    refine ⟨f, rest, rfl, ?_⟩
    by_cases hf : (f = '+' || f = '-') = true
    · rcases Bool.or_eq_true_iff.mp hf with h3 | h3 <;> rw [decide_eq_true_eq] at h3 <;>
        subst h3 <;> decide
    · have hf' : (f = '+' || f = '-') = false := Bool.eq_false_iff.mpr hf
      have hs1 : splitSign (f :: rest) = ([], f :: rest) := by
        simp [splitSign, hf']
      rw [isPlainLit, hs1] at hl
      by_cases hd : f.isDigit = true
      · exact not_space_of_digit hd
      · have hdw : (f :: rest).dropWhile Char.isDigit = f :: rest := by
          simp [List.dropWhile_cons, Bool.eq_false_iff.mpr hd]
        unfold plainBody at hl
        rw [hdw] at hl
        split at hl
        · rename_i heq
          exact absurd heq (by simp)
        · rename_i fp heq
          have hfdot : f = '.' := by
            have h0 := congrArg List.head? heq
            simpa using h0
          subst hfdot
          decide
        · exact absurd hl (by simp)

theorem tryPats_eq_none_iff (ps : List (List Char)) (text : List Char) :
    tryPats ps text = none ↔ ∀ p ∈ ps, scanPat p text = none := by
  induction ps with
  | nil => simp [tryPats]
  | cons p ps ih =>
    rw [tryPats]
    cases h : scanPat p text with
    | some n =>
      constructor
      · intro h0
        exact absurd h0 (by simp)
      · intro h0
        have h1 := h0 p (by simp)
        rw [h] at h1
        exact absurd h1 (by simp)
    | none =>
      simp only [ih]
      constructor
      · intro h0 q hq
        rcases List.mem_cons.mp hq with rfl | hq'
        · exact h
        · exact h0 q hq'
      · intro h0 q hq
        exact h0 q (List.mem_cons_of_mem _ hq)

theorem extract_score_marker (pre lit post : String)
    (hl : isPlainLit lit.data = true)
    (hpost : postOk lit.data post.data = true)
    (huniq : countCI markerLit (pre ++ markerStr ++ lit ++ post).data = 1) :
    extract_score (pre ++ markerStr ++ lit ++ post) = some (litToRat lit.data) := by
  have hms : markerStr.data = markerLit ++ [' '] := by decide
  have hdata : (pre ++ markerStr ++ lit ++ post).data
      = pre.data ++ (markerLit ++ (' ' :: (lit.data ++ post.data))) := by
    simp [String.data_append, hms, List.append_assoc]
  have hdw : (' ' :: (lit.data ++ post.data)).dropWhile isPySpace = lit.data ++ post.data := by
    obtain ⟨f, rest, hfr, hfsp⟩ := plain_head lit.data hl
    rw [List.dropWhile_cons]
    simp only [show isPySpace ' ' = true from by decide, if_true]
    rw [hfr, List.cons_append, List.dropWhile_cons, hfsp]
    simp
  have hnum : matchNum ((' ' :: (lit.data ++ post.data)).dropWhile isPySpace)
      = some lit.data := by
    rw [hdw]
    exact matchNum_plain lit.data post.data hl hpost
  have hscan : scanPat markerLit (pre ++ markerStr ++ lit ++ post).data = some lit.data := by
    rw [hdata]
    refine scanPat_append markerLit pre.data (' ' :: (lit.data ++ post.data)) lit.data
      (by decide) ?_ hnum
    rw [hdata] at huniq
    exact huniq
  have hscan' : scanPat markerLit (pre.data ++ (markerStr.data ++ (lit.data ++ post.data)))
      = some lit.data := by
    simp only [String.data_append, List.append_assoc] at hscan
    exact hscan
  simp [extract_score, extract_capture, tryPats, hscan']

/-- C1 (amended): if the text decomposes as pre ++ marker phrase ++ literal
++ post, where the literal is a plain decimal float literal without an
exponent part, the following text cannot extend the greedy numeric match,
and the marker text occurs exactly once case-insensitively, then the score
extractor returns exactly the value of that literal; and for any text on
which none of the patterns matches, the extractor returns none.  (The
original claim also covered scientific-notation literals; the extractor's
numeric group has no exponent part, so on such literals it returns only
the value of the mantissa prefix — see the counterexample.) -/
theorem C1_extract_score_amended :
    (∀ pre lit post : String,
      isPlainLit lit.data = true →
      postOk lit.data post.data = true →
      countCI markerLit (pre ++ markerStr ++ lit ++ post).data = 1 →
      extract_score (pre ++ markerStr ++ lit ++ post) = some (litToRat lit.data))
    ∧ (∀ text : String,
      (∀ p ∈ markerLit :: fallbackLits, scanPat p text.data = none) →
      extract_score text = none) := by
  constructor
  · intro pre lit post hl hpost huniq
    exact extract_score_marker pre lit post hl hpost huniq
  · intro text hnone
    have h0 : extract_capture text = none := (tryPats_eq_none_iff _ _).mpr hnone
    simp [extract_score, h0]

/-- C1 witness: a concrete text around the marker yields exactly the
literal's value, and a patternless text yields none. -/
theorem C1_witness :
    extract_score ("Training model\n" ++ markerStr ++ "0.8345" ++ "\n")
      = some (litToRat ['0', '.', '8', '3', '4', '5'])
    ∧ extract_score "no metrics here" = none :=
  ⟨C1_extract_score_amended.1 "Training model\n" "0.8345" "\n" (by decide) (by decide)
      (by decide),
   C1_extract_score_amended.2 "no metrics here" (by decide)⟩

/-- C1 counterexample: the text contains the marker phrase exactly once,
followed by the valid scientific-notation float literal 1e5 whose value is
100000; the extractor returns 1 (the mantissa prefix), not 100000, so the
original claim fails on scientific-notation literals. -/
theorem C1_counterexample :
    countCI markerLit ("Final Validation Performance: 1e5").data = 1
    ∧ extract_score "Final Validation Performance: 1e5" = some 1
    ∧ (1 : ℚ) ≠ 100000 :=
  ⟨by decide, by decide, by decide⟩

theorem betterThan_eq_not_pyLe (lower : Bool) (a b : ℚ) :
    betterThan lower a b = !(pyLe lower b a) := by
  cases lower <;> simp only [betterThan, pyLe, if_true, if_false, Bool.false_eq_true,
    Bool.true_eq_false] <;> rw [← decide_not, decide_eq_decide] <;> exact not_le.symm

theorem betterThan_trans {lower : Bool} {a b c : ℚ} (h1 : betterThan lower a b = true)
    (h2 : betterThan lower b c = true) : betterThan lower a c = true := by
  cases lower <;> simp only [betterThan, if_true, if_false, Bool.false_eq_true,
      Bool.true_eq_false, decide_eq_true_eq] at h1 h2 ⊢
  · exact lt_trans h2 h1
  · exact lt_trans h1 h2

theorem betterThan_false_trans {lower : Bool} {a b c : ℚ}
    (h1 : betterThan lower a b = false) (h2 : betterThan lower b c = false) :
    betterThan lower a c = false := by
  cases lower <;> simp only [betterThan, if_true, if_false, Bool.false_eq_true,
      Bool.true_eq_false, decide_eq_false_iff_not, not_lt] at h1 h2 ⊢
  · exact le_trans h1 h2
  · exact le_trans h2 h1

theorem insSortedBy_head {α : Type} (key : α → ℚ) (le : ℚ → ℚ → Bool) (x : α)
    (l : List α) :
    (insSortedBy key le x l).head? =
      some (match l with
            | [] => x
            | y :: _ => if le (key x) (key y) then x else y) := by
  cases l with
  | nil => rfl
  | cons y ys => cases h : le (key x) (key y) <;> simp [insSortedBy, h]

theorem pySort_head {α : Type} (key : α → ℚ) (lower : Bool) (l : List α) :
    (pySort key (pyLe lower) l).head? = firstBestBy key lower l := by
  induction l with
  | nil => rfl
  | cons x xs ih =>
    simp only [pySort, firstBestBy]
    rw [insSortedBy_head]
    cases hs : pySort key (pyLe lower) xs with
    | nil =>
      have hfb : firstBestBy key lower xs = none := by rw [← ih, hs]; rfl
      rw [hfb]
    | cons y ys =>
      have hfb : firstBestBy key lower xs = some y := by rw [← ih, hs]; rfl
      rw [hfb]
      have hbt := betterThan_eq_not_pyLe lower (key y) (key x)
      cases hle : pyLe lower (key x) (key y)
      · have hb : betterThan lower (key y) (key x) = true := by rw [hbt, hle]; rfl
        simp [hb, hle]
      · have hb : betterThan lower (key y) (key x) = false := by rw [hbt, hle]; rfl
        simp [hb, hle]

theorem mem_insSortedBy {α : Type} (key : α → ℚ) (le : ℚ → ℚ → Bool) (x : α)
    (l : List α) (z : α) :
    z ∈ insSortedBy key le x l ↔ z = x ∨ z ∈ l := by
  induction l with
  | nil => simp [insSortedBy]
  | cons y ys ih =>
    simp only [insSortedBy]
    cases h : le (key x) (key y)
    · simp [h, ih, List.mem_cons]
      tauto
    · simp [h, List.mem_cons]

theorem mem_pySort {α : Type} (key : α → ℚ) (le : ℚ → ℚ → Bool) (l : List α) (z : α) :
    z ∈ pySort key le l ↔ z ∈ l := by
  induction l with
  | nil => simp [pySort]
  | cons x xs ih => simp [pySort, mem_insSortedBy, ih]

theorem pySort_eq_nil_iff {α : Type} (key : α → ℚ) (le : ℚ → ℚ → Bool) (l : List α) :
    pySort key le l = [] ↔ l = [] := by
  cases l with
  | nil => simp [pySort]
  | cons x xs =>
    simp only [pySort]
    constructor
    · intro h
      have hx : x ∈ insSortedBy key le x (pySort key le xs) :=
        (mem_insSortedBy key le x _ x).mpr (Or.inl rfl)
      rw [h] at hx
      exact absurd hx (by simp)
    · intro h
      exact absurd h (by simp)

theorem foldl_specStep_eq (lower : Bool) (l : List Improvement) :
    ∀ bc bs, l.foldl (specIncumbentStep lower) (bc, bs) =
      match firstBestBy scoreKey lower (validFilter l) with
      | some m => if betterThan lower (scoreKey m) bs then (m.code, scoreKey m) else (bc, bs)
      | none => (bc, bs) := by
  induction l with
  | nil =>
    intro bc bs
    rfl
  | cons a l ih =>
    intro bc bs
    rw [List.foldl_cons]
    by_cases hval : (a.success && a.score.isSome) = true
    · have hval' : a.success = true ∧ a.score.isSome = true := by simpa using hval
      obtain ⟨s, hs⟩ : ∃ s, a.score = some s := Option.isSome_iff_exists.mp hval'.2
      have hsucc : a.success = true := hval'.1
      have hsk : scoreKey a = s := by simp [scoreKey, hs]
      have hstep : specIncumbentStep lower (bc, bs) a =
          if betterThan lower s bs then (a.code, s) else (bc, bs) := by
        simp [specIncumbentStep, hs, hsucc]
      have hvf : validFilter (a :: l) = a :: validFilter l := by
        simp [validFilter, List.filter_cons, hval]
      rw [hstep, hvf, firstBestBy]
      cases hfb : firstBestBy scoreKey lower (validFilter l) with
      | none =>
        by_cases hb : betterThan lower s bs = true
        · rw [if_pos hb, ih a.code s, hfb]
          simp [hsk, hb]
        · rw [if_neg hb, ih bc bs, hfb]
          simp [hsk, Bool.eq_false_iff.mpr hb]
      | some m =>
        by_cases hb : betterThan lower s bs = true
        · rw [if_pos hb, ih a.code s, hfb]
          by_cases hmb : betterThan lower (scoreKey m) s = true
          · have htr : betterThan lower (scoreKey m) bs = true := betterThan_trans hmb hb
            simp [hsk, hmb, htr]
          · simp [hsk, Bool.eq_false_iff.mpr hmb, hb]
        · rw [if_neg hb, ih bc bs, hfb]
          by_cases hmb : betterThan lower (scoreKey m) s = true
          · simp [hsk, hmb]
          · have h3 := betterThan_false_trans (Bool.eq_false_iff.mpr hmb)
              (Bool.eq_false_iff.mpr hb)
            simp [hsk, Bool.eq_false_iff.mpr hmb, Bool.eq_false_iff.mpr hb, h3]
    · have hvf : validFilter (a :: l) = validFilter l := by
        simp [validFilter, List.filter_cons, Bool.eq_false_iff.mpr hval]
      have hstep : specIncumbentStep lower (bc, bs) a = (bc, bs) := by
        rcases ha : a.score with _ | s
        · simp [specIncumbentStep, ha]
        · have hsucc : a.success = false := by
            cases hb : a.success
            · rfl
            · exact absurd (by simp [hb, ha]) hval
          simp [specIncumbentStep, ha, hsucc]
      rw [hstep, hvf]
      exact ih bc bs

theorem innerFinal_eq_foldl (lower : Bool) (bc : String) (bs : ℚ)
    (imps : List Improvement) :
    innerFinal lower bc bs imps = imps.foldl (specIncumbentStep lower) (bc, bs) := by
  rw [foldl_specStep_eq]
  simp only [innerFinal, run_inner_loop_select, innerBest, pySort_head]
  cases hfb : firstBestBy scoreKey lower (validFilter imps) with
  | none => rfl
  | some m =>
    by_cases hb : betterThan lower (scoreKey m) bs = true
    · simp [hb]
    · simp [Bool.eq_false_iff.mpr hb]

theorem ensembleStep_eq_specStepOpt (lower : Bool) (best : Option String × Option ℚ)
    (it : IterAttempt) : ensembleStep lower best it = specStepOpt lower best it := by
  rcases hsc : it.score with _ | s
  · cases hsu : it.success <;> simp [ensembleStep, specStepOpt, hsc, hsu]
  · cases hsu : it.success
    · simp [ensembleStep, specStepOpt, hsc, hsu]
    · rcases hb : best.2 with _ | bs <;>
        simp [ensembleStep, specStepOpt, hsc, hsu, hb, betterOpt]

theorem mergeStep_eq_specMergeStep (lower : Bool) (cur : String × ℚ) (r : MergeAttempt) :
    mergeStep lower cur r = specMergeStep lower cur r := by
  rcases hsc : r.score with _ | s
  · cases hsu : r.success <;> simp [mergeStep, specMergeStep, hsc, hsu]
  · cases hsu : r.success <;> simp [mergeStep, specMergeStep, hsc, hsu]

theorem ensembleLoopGo_spec (lower : Bool) (ie : Nat → String → String × Bool × Option ℚ)
    (rr : Nat → List String → List IterAttempt → String) :
    ∀ fuel k plans iters best,
      ∃ D, (ensembleLoopGo lower ie rr fuel k plans iters best).2.1 = iters ++ D ∧
        (ensembleLoopGo lower ie rr fuel k plans iters best).2.2 =
          D.foldl (specStepOpt lower) best := by
  intro fuel
  induction fuel with
  | zero =>
    intro k plans iters best
    exact ⟨[], by simp [ensembleLoopGo], by simp [ensembleLoopGo]⟩
  | succ fuel ih =>
    intro k plans iters best
    cases hgen : ensemble_generate_refined_plan (rr k plans iters) plans iters with
    | none =>
      refine ⟨[], ?_, ?_⟩ <;> simp [ensembleLoopGo, hgen]
    | some plan =>
      obtain ⟨D, hD1, hD2⟩ := ih (k + 1) (plans ++ [plan])
        (iters ++ [implementAndEvaluate ie k plan])
        (ensembleStep lower best (implementAndEvaluate ie k plan))
      refine ⟨implementAndEvaluate ie k plan :: D, ?_, ?_⟩
      · simp only [ensembleLoopGo, hgen]
        rw [hD1]
        simp
      · simp only [ensembleLoopGo, hgen]
        rw [hD2, List.foldl_cons, ensembleStep_eq_specStepOpt]

theorem ensemble_loop_spec (lower : Bool) (rounds : Nat)
    (ie : Nat → String → String × Bool × Option ℚ)
    (rr : Nat → List String → List IterAttempt → String) (p : String) :
    ∃ D, (ensemble_loop lower rounds ie rr p).2.1 = implementAndEvaluate ie 0 p :: D ∧
      (ensemble_loop lower rounds ie rr p).2.2 =
        D.foldl (specStepOpt lower)
          (some (implementAndEvaluate ie 0 p).code, (implementAndEvaluate ie 0 p).score) := by
  obtain ⟨D, h1, h2⟩ := ensembleLoopGo_spec lower ie rr rounds 1 [p]
    [implementAndEvaluate ie 0 p]
    (some (implementAndEvaluate ie 0 p).code, (implementAndEvaluate ie 0 p).score)
  refine ⟨D, ?_, ?_⟩
  · rw [ensemble_loop]
    rw [h1]
    simp
  · rw [ensemble_loop]
    exact h2

/-- C2 (amended): in the refinement inner loop, the ensemble loop and the
initialization merge loop, the incumbent is replaced exactly when the new
attempt succeeded, has a defined score, and strictly beats the incumbent
under the global objective direction (an undefined ensemble incumbent
counts as worst); otherwise the incumbent is unchanged.  The inner loop's
collect-sort-compare selection equals the attempt-by-attempt spec rule;
the ensemble loop records every evaluated attempt in its iterations list
and its best pair equals the spec-rule fold over that list.  In the
concrete lower-is-better instance with seed score 0.50 and two iterations
scoring 0.60 then 0.40, the final incumbent score is 0.40 and the history
holds both attempts.  (The original claim also asserted history recording
for the initialization merge loop, which keeps no attempt history — see
the counterexample.) -/
theorem C2_incumbent_rule_amended :
    (∀ (lower : Bool) (best : Option String × Option ℚ) (it : IterAttempt),
      ensembleStep lower best it = specStepOpt lower best it)
    ∧ (∀ (lower : Bool) (bc : String) (bs : ℚ) (imps : List Improvement),
      innerFinal lower bc bs imps = imps.foldl (specIncumbentStep lower) (bc, bs))
    ∧ (∀ (lower : Bool) (ms : List MergeAttempt) (cur : String × ℚ),
      merge_loop lower ms cur = ms.foldl (specMergeStep lower) cur)
    ∧ (∀ (lower : Bool) (rounds : Nat) (ie : Nat → String → String × Bool × Option ℚ)
        (rr : Nat → List String → List IterAttempt → String) (p : String),
      ∃ D, (ensemble_loop lower rounds ie rr p).2.1 = implementAndEvaluate ie 0 p :: D ∧
        (ensemble_loop lower rounds ie rr p).2.2 =
          D.foldl (specStepOpt lower)
            (some (implementAndEvaluate ie 0 p).code, (implementAndEvaluate ie 0 p).score))
    ∧ ((run_inner_loop_attempts 2 demoImplement demoEvaluate demoGenRaw "plan A").2.length = 2
      ∧ (run_inner_loop_attempts 2 demoImplement demoEvaluate demoGenRaw "plan A").2.map
          (fun i => i.score) = [some (mkRat 3 5), some (mkRat 2 5)]
      ∧ innerFinal true "base code" (mkRat 1 2)
          (run_inner_loop_attempts 2 demoImplement demoEvaluate demoGenRaw "plan A").2
        = ("codeB", mkRat 2 5)) := by
  refine ⟨ensembleStep_eq_specStepOpt, innerFinal_eq_foldl, ?_, ensemble_loop_spec, ?_⟩
  · intro lower ms cur
    have hf : mergeStep lower = specMergeStep lower :=
      funext fun c => funext fun r => mergeStep_eq_specMergeStep lower c r
    rw [merge_loop, hf]
  · exact ⟨by decide, by decide, by decide⟩

/-- C2 counterexample: the initialization merge loop records no attempt
history — two runs differing only in the rejected attempt produce
identical results, so the rejected attempt is recorded nowhere, against
the claim that every attempt of the merge loop is recorded in the loop's
history. -/
theorem C2_counterexample :
    merge_loop true [{ code := "merged solution X", success := true, score := some 5 }]
        ("base", 1)
      = merge_loop true [{ code := "merged solution Y", success := true, score := some 7 }]
        ("base", 1)
    ∧ ({ code := "merged solution X", success := true, score := some 5 } : MergeAttempt)
      ≠ { code := "merged solution Y", success := true, score := some 7 } :=
  ⟨by decide, by decide⟩

theorem head?_mem {α : Type} {l : List α} {b : α} (h : l.head? = some b) : b ∈ l := by
  cases l with
  | nil => exact absurd h (by simp)
  | cons c cs =>
    have hc : c = b := by simpa using h
    rw [← hc]
    exact List.mem_cons_self c cs

theorem mem_select_candidates_isSome (refined : List RefinedResult)
    (ens : Option EnsembleLite) (c : SubCandidate)
    (hc : c ∈ select_candidates refined ens) : c.score.isSome = true := by
  unfold select_candidates at hc
  rcases List.mem_append.mp hc with h | h
  · obtain ⟨r, _, hmap⟩ := List.mem_filterMap.mp h
    by_cases hcond : (truthyStr r.final_code && r.final_score.isSome) = true
    · have hcond' : truthyStr r.final_code = true ∧ r.final_score.isSome = true := by
        simpa using hcond
      rw [if_pos hcond] at hmap
      have hc' := Option.some.inj hmap
      rw [← hc']
      simpa using hcond'.2
    · rw [if_neg hcond] at hmap
      exact absurd hmap (by simp)
  · rcases hens : ens with _ | e
    · rw [hens] at h
      simp at h
    · rw [hens] at h
      have h' : c ∈ (if truthyStr e.best_ensemble_code = true then
            (if e.best_ensemble_score.isSome = true then
              [({ code := e.best_ensemble_code.getD "",
                  score := e.best_ensemble_score,
                  src := "ensemble" } : SubCandidate)]
            else [])
          else []) := h
      by_cases h1 : truthyStr e.best_ensemble_code = true
      · rw [if_pos h1] at h'
        by_cases h2 : e.best_ensemble_score.isSome = true
        · rw [if_pos h2] at h'
          have hceq : c = { code := e.best_ensemble_code.getD "",
                            score := e.best_ensemble_score,
                            src := "ensemble" } := by simpa using h'
          rw [hceq]
          simpa using h2
        · rw [if_neg h2] at h'
          simp at h'
      · rw [if_neg h1] at h'
        simp at h'

/-- C3: the submission stage's best-solution selection and the inner
loop's best selection never pick an undefined-score candidate: every
selected best has a defined score, and a best is selected whenever any
defined-score candidate is present. -/
theorem C3_no_undefined_best :
    (∀ (lower : Bool) (refined : List RefinedResult) (ens : Option EnsembleLite)
        (b : SubCandidate),
      select_best_solution lower refined ens = some b → b.score.isSome = true)
    ∧ (∀ (lower : Bool) (refined : List RefinedResult) (ens : Option EnsembleLite),
      (∃ r ∈ refined, truthyStr r.final_code = true ∧ r.final_score.isSome = true) →
      select_best_solution lower refined ens ≠ none)
    ∧ (∀ (lower : Bool) (imps : List Improvement) (b : Improvement),
      innerBest lower imps = some b → b.success = true ∧ b.score.isSome = true)
    ∧ (∀ (lower : Bool) (imps : List Improvement),
      (∃ a ∈ imps, a.success = true ∧ a.score.isSome = true) →
      innerBest lower imps ≠ none) := by
  refine ⟨?_, ?_, ?_, ?_⟩
  · intro lower refined ens b h
    rw [select_best_solution] at h
    have hb := (mem_pySort candKey (pyLe lower) (select_candidates refined ens) b).mp
      (head?_mem h)
    exact mem_select_candidates_isSome refined ens b hb
  · intro lower refined ens h
    obtain ⟨r, hr, h1, h2⟩ := h
    have hc : ({ code := r.final_code.getD "",
                 score := r.final_score,
                 src := "refined_agent_" ++ toString r.task_id } : SubCandidate)
        ∈ select_candidates refined ens := by
      unfold select_candidates
      apply List.mem_append_left
      apply List.mem_filterMap.mpr
      exact ⟨r, hr, by rw [if_pos (by simp [h1, h2])]⟩
    intro hnone
    rw [select_best_solution] at hnone
    cases hs : pySort candKey (pyLe lower) (select_candidates refined ens) with
    | nil =>
      have hnil := (pySort_eq_nil_iff candKey (pyLe lower) _).mp hs
      rw [hnil] at hc
      exact absurd hc (by simp)
    | cons c cs =>
      rw [hs] at hnone
      exact absurd hnone (by simp)
  · intro lower imps b h
    rw [innerBest] at h
    have hb := (mem_pySort scoreKey (pyLe lower) (validFilter imps) b).mp (head?_mem h)
    have hf := List.mem_filter.mp hb
    simpa using hf.2
  · intro lower imps h
    obtain ⟨a, ha, h1, h2⟩ := h
    have hc : a ∈ validFilter imps :=
      List.mem_filter.mpr ⟨ha, by simp [h1, h2]⟩
    intro hnone
    rw [innerBest] at hnone
    cases hs : pySort scoreKey (pyLe lower) (validFilter imps) with
    | nil =>
      have hnil := (pySort_eq_nil_iff scoreKey (pyLe lower) _).mp hs
      rw [hnil] at hc
      exact absurd hc (by simp)
    | cons c cs =>
      rw [hs] at hnone
      exact absurd hnone (by simp)

/-- C3 witness: concrete instances of each selection property. -/
theorem C3_witness :
    (({ code := "ecode", score := some 3, src := "ensemble" } : SubCandidate).score.isSome
      = true)
    ∧ select_best_solution true
        [{ task_id := 1, final_code := some "rcode", final_score := some 3 }] none ≠ none
    ∧ (({ plan := "p", code := "c", score := some 2, success := true } :
        Improvement).success = true
      ∧ ({ plan := "p", code := "c", score := some 2, success := true } :
        Improvement).score.isSome = true)
    ∧ innerBest true [{ plan := "p", code := "c", score := some 2, success := true }]
      ≠ none :=
  ⟨C3_no_undefined_best.1 true []
      (some { best_ensemble_code := some "ecode", best_ensemble_score := some 3 })
      { code := "ecode", score := some 3, src := "ensemble" } (by decide),
   C3_no_undefined_best.2.1 true
      [{ task_id := 1, final_code := some "rcode", final_score := some 3 }] none
      ⟨{ task_id := 1, final_code := some "rcode", final_score := some 3 },
        by decide, by decide, by decide⟩,
   C3_no_undefined_best.2.2.1 true
      [{ plan := "p", code := "c", score := some 2, success := true }]
      { plan := "p", code := "c", score := some 2, success := true } (by decide),
   C3_no_undefined_best.2.2.2 true
      [{ plan := "p", code := "c", score := some 2, success := true }]
      ⟨{ plan := "p", code := "c", score := some 2, success := true },
        by decide, by decide, by decide⟩⟩

/-- C4 (amended): once the source file has been persisted, execute_code
never raises: a timeout yields a failure EvaluationResult whose stderr
explains the timeout and whose score is undefined; a spawn failure is
caught and converted to a failure EvaluationResult; a completed process
yields a result whose success is its exit status and whose score is
extracted from stdout.  (The original claim said execute_code never raises
for every input; the file write precedes the try block, so a failing write
— e.g. a nonexistent working directory — propagates: see the
counterexample.) -/
theorem C4_execute_code_amended :
    (∀ (r : RunOutcome) (t : Nat) (g : List String),
      ∃ res, execute_code .ok r t g = .ok res)
    ∧ (∀ (t : Nat) (g : List String),
      execute_code .ok .timedOut t g =
        .ok { success := false, returncode := -1, stdout := "",
              stderr := "Execution timed out after " ++ toString t ++ " seconds",
              score := none, generated_files := [] })
    ∧ (∀ (msg : String) (t : Nat) (g : List String),
      execute_code .ok (.spawnError msg) t g =
        .ok { success := false, returncode := -1, stdout := "",
              stderr := "Execution error: " ++ msg, score := none,
              generated_files := [] })
    ∧ (∀ (rc : Int) (out err : String) (t : Nat) (g : List String),
      execute_code .ok (.completed rc out err) t g =
        .ok { success := rc == 0, returncode := rc, stdout := out, stderr := err,
              score := extract_score out, generated_files := g }) := by
  refine ⟨?_, fun t g => rfl, fun msg t g => rfl, fun rc out err t g => rfl⟩
  intro r t g
  cases r <;> exact ⟨_, rfl⟩

/-- C4 counterexample: when persisting the source file fails (the open and
write precede the try block, e.g. filename inside a nonexistent
subdirectory of the working directory), execute_code raises to its caller
instead of returning a failure EvaluationResult, so the claim's
"never raises for every input" fails. -/
theorem C4_counterexample :
    execute_code (.failed "FileNotFoundError: [Errno 2] No such file or directory")
        (.completed 0 "" "") 600 []
      = .error "FileNotFoundError: [Errno 2] No such file or directory" := rfl

theorem isPrefixOf_self (l : List Char) : l.isPrefixOf l = true := by
  induction l with
  | nil => rfl
  | cons a as ih => simp [List.isPrefixOf, ih]

theorem isSubstrCI_self (s : String) : isSubstrCI s s = true := by
  rw [isSubstrCI]
  apply List.any_eq_true.mpr
  refine ⟨0, ?_, ?_⟩
  · simp [List.mem_range]
  · rw [List.drop_zero]
    exact isPrefixOf_self (lowerStr s)

/-- C5: the plan-generation step of both improvement loops refuses a
proposal that is a case-insensitive substring of a previously tried plan,
and a generation oracle that always proposes a plan identical to the
already tried initial plan stops the loop after the initial evaluation:
exactly one attempt is ever evaluated, whatever the configured number of
rounds. -/
theorem C5_duplicate_plan_guard :
    (∀ (raw : String) (plans : List String),
      (∃ t ∈ plans, isSubstrCI raw t = true) → generate_refined_plan raw plans = none)
    ∧ (∀ (raw : String) (pp : List String) (pr : List IterAttempt),
      (∃ q ∈ pp, isSubstrCI raw q = true) →
      ensemble_generate_refined_plan raw pp pr = none)
    ∧ (∀ (rounds : Nat) (implement : Nat → String → String)
        (evaluate : Nat → String → EvalOut) (initial : String),
      (run_inner_loop_attempts rounds implement evaluate (fun _ _ _ => initial)
        initial).2.length = 1)
    ∧ (∀ (lower : Bool) (rounds : Nat) (ie : Nat → String → String × Bool × Option ℚ)
        (p : String),
      (ensemble_loop lower rounds ie (fun _ _ _ => p) p).2.1.length = 1) := by
  have hgen : ∀ (raw : String) (plans : List String),
      (∃ t ∈ plans, isSubstrCI raw t = true) → generate_refined_plan raw plans = none := by
    intro raw plans ⟨t, ht, hsub⟩
    rw [generate_refined_plan, if_pos]
    exact List.any_eq_true.mpr ⟨t, ht, hsub⟩
  have hegen : ∀ (raw : String) (pp : List String) (pr : List IterAttempt),
      (∃ q ∈ pp, isSubstrCI raw q = true) →
      ensemble_generate_refined_plan raw pp pr = none := by
    intro raw pp pr ⟨q, hq, hsub⟩
    simp only [ensemble_generate_refined_plan]
    by_cases he : ((pp.zip pr).filter (fun x => x.2.success && x.2.score.isSome)).isEmpty
      = true
    · rw [if_pos he]
    · rw [if_neg he, if_pos]
      exact List.any_eq_true.mpr ⟨q, hq, hsub⟩
  refine ⟨hgen, hegen, ?_, ?_⟩
  · intro rounds implement evaluate initial
    rw [run_inner_loop_attempts]
    cases h : rounds - 1 with
    | zero => simp [innerLoopGo]
    | succ fuel =>
      have hdup : generate_refined_plan initial [initial] = none :=
        hgen initial [initial] ⟨initial, by simp, isSubstrCI_self initial⟩
      simp [innerLoopGo, hdup]
  · intro lower rounds ie p
    rw [ensemble_loop]
    cases rounds with
    | zero => simp [ensembleLoopGo]
    | succ fuel =>
      have hdup : ∀ iters, ensemble_generate_refined_plan p [p] iters = none :=
        fun iters => hegen p [p] iters ⟨p, by simp, isSubstrCI_self p⟩
      simp [ensembleLoopGo, hdup]

/-- C5 witness: concrete duplicate proposals are refused by both
plan-generation steps. -/
theorem C5_witness :
    generate_refined_plan "use XGBoost" ["First, Use XGBoost with depth 8"] = none
    ∧ ensemble_generate_refined_plan "average predictions"
        ["First average predictions of all models"]
        [{ plan := "q", code := "c", success := true, score := some 1 }] = none :=
  ⟨C5_duplicate_plan_guard.1 "use XGBoost" ["First, Use XGBoost with depth 8"]
      ⟨"First, Use XGBoost with depth 8", by decide, by decide⟩,
   C5_duplicate_plan_guard.2.1 "average predictions"
      ["First average predictions of all models"]
      [{ plan := "q", code := "c", success := true, score := some 1 }]
      ⟨"First average predictions of all models", by decide, by decide⟩⟩

theorem getLast?_cons_of_ne_nil {α : Type} (a : α) {l : List α} (h : l ≠ []) :
    (a :: l).getLast? = l.getLast? := by
  cases l with
  | nil => exact absurd rfl h
  | cons b t => rfl

theorem mem_of_getLast? {α : Type} : ∀ {l : List α} {a : α}, l.getLast? = some a → a ∈ l
  | [], a, h => by simp at h
  | [b], a, h => by
      have hb : b = a := by simpa using h
      simp [hb]
  | b :: c :: t, a, h => by
      rw [getLast?_cons_of_ne_nil b (by simp)] at h
      exact List.mem_cons_of_mem b (mem_of_getLast? h)

theorem debugAttempts_length_le (ex : Nat → String → EvalResult)
    (fix : String → String → String) :
    ∀ (maxA att : Nat) (code error : String),
      (debugAttempts ex fix maxA att code error).length ≤ maxA := by
  intro maxA
  induction maxA with
  | zero =>
    intro att code error
    simp [debugAttempts]
  | succ m ih =>
    intro att code error
    rw [debugAttempts]
    cases hr : (ex att (fix code error)).success
    · simp only [hr, Bool.false_eq_true, if_false, List.length_cons]
      exact Nat.succ_le_succ (ih (att + 1) (fix code error) (ex att (fix code error)).stderr)
    · simp [hr]

theorem debugAttempts_success_last (ex : Nat → String → EvalResult)
    (fix : String → String → String) :
    ∀ (maxA att : Nat) (code error : String) (p : String × EvalResult),
      p ∈ debugAttempts ex fix maxA att code error → p.2.success = true →
      (debugAttempts ex fix maxA att code error).getLast? = some p := by
  intro maxA
  induction maxA with
  | zero =>
    intro att code error p hp _
    simp [debugAttempts] at hp
  | succ m ih =>
    intro att code error p hp hs
    rw [debugAttempts] at hp ⊢
    cases hr : (ex att (fix code error)).success
    · simp only [hr, Bool.false_eq_true, if_false] at hp ⊢
      rcases List.mem_cons.mp hp with hpe | hmem
      · rw [hpe] at hs
        simp [hr] at hs
      · rw [getLast?_cons_of_ne_nil _ (List.ne_nil_of_mem hmem)]
        exact ih (att + 1) (fix code error) (ex att (fix code error)).stderr p hmem hs
    · simp only [hr, if_true] at hp ⊢
      have hpe : p = (fix code error, ex att (fix code error)) := by simpa using hp
      simp [hpe]

theorem debugAttempts_all_fail_length (ex : Nat → String → EvalResult)
    (fix : String → String → String) :
    ∀ (maxA att : Nat) (code error : String),
      (∀ p ∈ debugAttempts ex fix maxA att code error, p.2.success = false) →
      (debugAttempts ex fix maxA att code error).length = maxA := by
  intro maxA
  induction maxA with
  | zero =>
    intro att code error _
    simp [debugAttempts]
  | succ m ih =>
    intro att code error hall
    rw [debugAttempts] at hall ⊢
    cases hr : (ex att (fix code error)).success
    · simp only [hr, Bool.false_eq_true, if_false] at hall ⊢
      have hrest : ∀ p ∈ debugAttempts ex fix m (att + 1) (fix code error)
          (ex att (fix code error)).stderr, p.2.success = false :=
        fun p hp => hall p (List.mem_cons_of_mem _ hp)
      simp [ih (att + 1) (fix code error) (ex att (fix code error)).stderr hrest]
    · have hhead := hall (fix code error, ex att (fix code error)) (by simp [hr])
      simp [hr] at hhead

/-- C6: debug_code performs at most max_attempts re-executions; any
successful executed attempt is the returned one (so the loop returns
immediately on first success, with the patched source and its result);
with a positive budget it always returns some executed (source, result)
pair rather than raising; and when every attempt fails it consumes the
whole budget and returns the last failing pair. -/
theorem C6_debug_code_bounded :
    (∀ (ex : Nat → String → EvalResult) (aI fN : String → String → String)
        (fP : String → String) (maxA att : Nat) (code error : String),
      (debugAttempts ex (debug_fix aI fN fP) maxA att code error).length ≤ maxA)
    ∧ (∀ (ex : Nat → String → EvalResult) (aI fN : String → String → String)
        (fP : String → String) (maxA : Nat) (code error : String)
        (p : String × EvalResult),
      p ∈ debugAttempts ex (debug_fix aI fN fP) maxA 0 code error →
      p.2.success = true →
      debug_code ex aI fN fP code error maxA = some p)
    ∧ (∀ (ex : Nat → String → EvalResult) (aI fN : String → String → String)
        (fP : String → String) (maxA : Nat) (code error : String),
      1 ≤ maxA →
      ∃ pr, debug_code ex aI fN fP code error maxA = some pr ∧
        pr ∈ debugAttempts ex (debug_fix aI fN fP) maxA 0 code error)
    ∧ (∀ (ex : Nat → String → EvalResult) (aI fN : String → String → String)
        (fP : String → String) (maxA : Nat) (code error : String),
      (∀ p ∈ debugAttempts ex (debug_fix aI fN fP) maxA 0 code error,
        p.2.success = false) →
      (debugAttempts ex (debug_fix aI fN fP) maxA 0 code error).length = maxA
      ∧ debug_code ex aI fN fP code error maxA =
          (debugAttempts ex (debug_fix aI fN fP) maxA 0 code error).getLast?) := by
  refine ⟨?_, ?_, ?_, ?_⟩
  · intro ex aI fN fP maxA att code error
    exact debugAttempts_length_le ex (debug_fix aI fN fP) maxA att code error
  · intro ex aI fN fP maxA code error p hp hs
    rw [debug_code]
    exact debugAttempts_success_last ex (debug_fix aI fN fP) maxA 0 code error p hp hs
  · intro ex aI fN fP maxA code error hpos
    obtain ⟨m, rfl⟩ : ∃ m, maxA = m + 1 := ⟨maxA - 1, by omega⟩
    have hne : debugAttempts ex (debug_fix aI fN fP) (m + 1) 0 code error ≠ [] := by
      rw [debugAttempts]
      cases hr : (ex 0 (debug_fix aI fN fP code error)).success <;> simp [hr]
    cases hlast : (debugAttempts ex (debug_fix aI fN fP) (m + 1) 0 code error).getLast? with
    | none =>
      rw [List.getLast?_eq_none_iff] at hlast
      exact absurd hlast hne
    | some pr =>
      exact ⟨pr, by rw [debug_code, hlast], mem_of_getLast? hlast⟩
  · intro ex aI fN fP maxA code error hall
    exact ⟨debugAttempts_all_fail_length ex (debug_fix aI fN fP) maxA 0 code error hall,
      rfl⟩

/-- C6 witness: with an executor that succeeds immediately the debugger
returns that first attempt; with an executor that always fails it consumes
the whole budget of three attempts and still returns a pair. -/
theorem C6_witness :
    (debugAttempts demoExecOK (debug_fix demoAddImport demoFixName demoFixPaths) 5 0
      "x = 1" "SyntaxError: invalid syntax").length ≤ 5
    ∧ debug_code demoExecOK demoAddImport demoFixName demoFixPaths "x = 1"
        "SyntaxError: invalid syntax" 5
      = some ("x = 1", { success := true, returncode := 0, stdout := "done",
                         stderr := "", score := none, generated_files := [] })
    ∧ (∃ pr, debug_code demoExecFail demoAddImport demoFixName demoFixPaths "x = 1"
          "SyntaxError: invalid syntax" 3 = some pr
        ∧ pr ∈ debugAttempts demoExecFail (debug_fix demoAddImport demoFixName demoFixPaths)
            3 0 "x = 1" "SyntaxError: invalid syntax")
    ∧ (debugAttempts demoExecFail (debug_fix demoAddImport demoFixName demoFixPaths) 3 0
        "x = 1" "SyntaxError: invalid syntax").length = 3 :=
  ⟨C6_debug_code_bounded.1 demoExecOK demoAddImport demoFixName demoFixPaths 5 0
      "x = 1" "SyntaxError: invalid syntax",
   C6_debug_code_bounded.2.1 demoExecOK demoAddImport demoFixName demoFixPaths 5
      "x = 1" "SyntaxError: invalid syntax"
      ("x = 1", { success := true, returncode := 0, stdout := "done", stderr := "",
                  score := none, generated_files := [] })
      (by decide) (by decide),
   C6_debug_code_bounded.2.2.1 demoExecFail demoAddImport demoFixName demoFixPaths 3
      "x = 1" "SyntaxError: invalid syntax" (by decide),
   (C6_debug_code_bounded.2.2.2 demoExecFail demoAddImport demoFixName demoFixPaths 3
      "x = 1" "SyntaxError: invalid syntax" (by decide)).1⟩

/-- C7: get_structured_output returns the parsed value when the raw
response is valid JSON standalone; otherwise it locates the brace-
delimited JSON substring and returns its parse; and whenever neither parse
recovers a value it raises a distinguishable error (the explicit
ValueError when no substring is found, the JSONDecodeError — itself a
ValueError — when the located substring fails to parse), never returning a
value and never raising an unrelated fault. -/
theorem C7_structured_output :
    (∀ (α : Type) (loads : String → Option α) (resp : String) (v : α),
      loads resp = some v → get_structured_output loads resp = .ok v)
    ∧ (∀ (α : Type) (loads : String → Option α) (resp s : String) (v : α),
      loads resp = none → findJsonSubstr resp = some s → loads s = some v →
      get_structured_output loads resp = .ok v)
    ∧ (∀ (α : Type) (loads : String → Option α) (resp s : String),
      loads resp = none → findJsonSubstr resp = some s → loads s = none →
      get_structured_output loads resp = .error .decodeError)
    ∧ (∀ (α : Type) (loads : String → Option α) (resp : String),
      loads resp = none → findJsonSubstr resp = none →
      get_structured_output loads resp =
        .error (.valueError ("Could not parse JSON from response: " ++ resp))) := by
  refine ⟨?_, ?_, ?_, ?_⟩
  · intro α loads resp v h1
    simp [get_structured_output, h1]
  · intro α loads resp s v h1 h2 h3
    simp [get_structured_output, h1, h2, h3]
  · intro α loads resp s h1 h2 h3
    simp [get_structured_output, h1, h2, h3]
  · intro α loads resp h1 h2
    simp [get_structured_output, h1, h2]

/-- C7 witness: concrete instances of all four behaviors with a toy
decoder. -/
theorem C7_witness :
    get_structured_output demoLoads "\x7b1\x7d" = .ok 1
    ∧ get_structured_output demoLoads "noise \x7b1\x7d end" = .ok 1
    ∧ get_structured_output demoLoads "pre \x7b bad \x7d post" = .error .decodeError
    ∧ get_structured_output demoLoads "no json here" =
        .error (.valueError ("Could not parse JSON from response: " ++ "no json here")) :=
  ⟨C7_structured_output.1 Nat demoLoads "\x7b1\x7d" 1 (by decide),
   C7_structured_output.2.1 Nat demoLoads "noise \x7b1\x7d end" "\x7b1\x7d" 1
     (by decide) (by decide) (by decide),
   C7_structured_output.2.2.1 Nat demoLoads "pre \x7b bad \x7d post" "\x7b bad \x7d"
     (by decide) (by decide) (by decide),
   C7_structured_output.2.2.2 Nat demoLoads "no json here" (by decide) (by decide)⟩

/-- C8: when a stage raises, the orchestrator catches it, records the
error message and traceback into the results, and the persisted results
still contain the record of every stage completed before the failure; when
no stage raises, all stage records are present and no error is recorded. -/
theorem C8_stage_results_retained :
    (∀ (α : Type) (done : List (String × α)) (name : String) (e : StageErr)
        (rest : List (String × Except StageErr α)),
      pipeline_run (done.map (fun q => (q.1, Except.ok q.2)) ++ (name, Except.error e) :: rest)
        = { stages := done, errorInfo := some (e.msg, e.tb) })
    ∧ (∀ (α : Type) (done : List (String × α)),
      pipeline_run (done.map (fun q => (q.1, Except.ok q.2)))
        = { stages := done, errorInfo := none }) := by
  constructor
  · intro α done name e rest
    induction done with
    | nil => rfl
    | cons q done ih =>
      simp [pipeline_run, ih]
  · intro α done
    induction done with
    | nil => rfl
    | cons q done ih =>
      simp [pipeline_run, ih]

/-- C9: with fewer than two valid refined solutions (truthy final_code and
defined final_score), EnsembleAgent.run returns the success=False
insufficient-solutions message, and its result does not depend on the plan
or any LLM/executor oracle — no ensemble plan is generated and no code is
executed. -/
theorem C9_ensemble_insufficient :
    (∀ (lower : Bool) (rounds : Nat) (sols : List SolutionInput) (p : String)
        (ie : Nat → String → String × Bool × Option ℚ)
        (rr : Nat → List String → List IterAttempt → String),
      (sols.filter validSolution).length < 2 →
      ensemble_run lower rounds sols p ie rr =
        .ok (.insufficient "Insufficient solutions for ensemble"))
    ∧ (∀ (lower lower' : Bool) (rounds rounds' : Nat) (sols : List SolutionInput)
        (p p' : String) (ie ie' : Nat → String → String × Bool × Option ℚ)
        (rr rr' : Nat → List String → List IterAttempt → String),
      (sols.filter validSolution).length < 2 →
      ensemble_run lower rounds sols p ie rr =
        ensemble_run lower' rounds' sols p' ie' rr') := by
  have h1 : ∀ (lower : Bool) (rounds : Nat) (sols : List SolutionInput) (p : String)
      (ie : Nat → String → String × Bool × Option ℚ)
      (rr : Nat → List String → List IterAttempt → String),
      (sols.filter validSolution).length < 2 →
      ensemble_run lower rounds sols p ie rr =
        .ok (.insufficient "Insufficient solutions for ensemble") := by
    intro lower rounds sols p ie rr h
    simp only [ensemble_run]
    rw [if_pos h]
  exact ⟨h1, fun lower lower' rounds rounds' sols p p' ie ie' rr rr' h => by
    rw [h1 lower rounds sols p ie rr h, h1 lower' rounds' sols p' ie' rr' h]⟩

/-- C9 witness: a single valid input solution triggers the insufficient
path, independent of the oracles. -/
theorem C9_witness :
    ensemble_run true 2 [{ final_code := some "only solution", final_score := some 1 }]
        "avg plan" demoImplEval demoRefinedRaw
      = .ok (.insufficient "Insufficient solutions for ensemble")
    ∧ ensemble_run true 2 [{ final_code := some "only solution", final_score := some 1 }]
        "avg plan" demoImplEval demoRefinedRaw
      = ensemble_run false 7 [{ final_code := some "only solution", final_score := some 1 }]
        "other plan" demoImplEval demoRefinedRaw :=
  ⟨C9_ensemble_insufficient.1 true 2
      [{ final_code := some "only solution", final_score := some 1 }]
      "avg plan" demoImplEval demoRefinedRaw (by decide),
   C9_ensemble_insufficient.2 true false 2 7
      [{ final_code := some "only solution", final_score := some 1 }]
      "avg plan" "other plan" demoImplEval demoImplEval demoRefinedRaw demoRefinedRaw
      (by decide)⟩

/-- C10: whenever the ensemble loop ends with a defined best score, run
computes improvement_percentage = |(best - individual_best) /
individual_best * 100|; with a zero best individual input score this
divides by zero and run fails (the uncaught ZeroDivisionError) instead of
returning a result, and with a nonzero one the completed results carry
exactly that percentage. -/
theorem C10_improvement_percentage :
    (∀ (lower : Bool) (rounds : Nat) (sols : List SolutionInput) (p : String)
        (ie : Nat → String → String × Bool × Option ℚ)
        (rr : Nat → List String → List IterAttempt → String) (bs : ℚ),
      ¬(sols.filter validSolution).length < 2 →
      (ensemble_loop lower rounds ie rr p).2.2.2 = some bs →
      individualBest lower
        ((sols.filter validSolution).map (fun s => s.final_score.getD 0)) = some 0 →
      ensemble_run lower rounds sols p ie rr =
        .error "ZeroDivisionError: float division by zero")
    ∧ (∀ (lower : Bool) (rounds : Nat) (sols : List SolutionInput) (p : String)
        (ie : Nat → String → String × Bool × Option ℚ)
        (rr : Nat → List String → List IterAttempt → String) (bs ib : ℚ),
      ¬(sols.filter validSolution).length < 2 →
      (ensemble_loop lower rounds ie rr p).2.2.2 = some bs →
      individualBest lower
        ((sols.filter validSolution).map (fun s => s.final_score.getD 0)) = some ib →
      ib ≠ 0 →
      ∃ r, ensemble_run lower rounds sols p ie rr = .ok (.completed r)
        ∧ r.best_ensemble_score = some bs
        ∧ r.improvement_percentage = some |(bs - ib) / ib * 100|
        ∧ r.ensemble_improved = some (betterThan lower bs ib)) := by
  constructor
  · intro lower rounds sols p ie rr bs hlen hbs hib
    simp only [ensemble_run]
    rw [if_neg hlen, hbs, hib]
    simp
  · intro lower rounds sols p ie rr bs ib hlen hbs hib hibne
    simp only [ensemble_run]
    rw [if_neg hlen, hbs, hib]
    refine ⟨{ num_solutions := (sols.filter validSolution).length,
              input_scores := (sols.filter validSolution).map (fun s => s.final_score.getD 0),
              ensemble_iterations := (ensemble_loop lower rounds ie rr p).2.1,
              best_ensemble_code := (ensemble_loop lower rounds ie rr p).2.2.1,
              best_ensemble_score := some bs,
              ensemble_improved := some (betterThan lower bs ib),
              improvement_percentage := some |(bs - ib) / ib * 100| }, ?_, rfl, rfl, rfl⟩
    simp [hibne]

/-- C10 witness: two valid inputs with best individual score 0 make run
raise ZeroDivisionError; with best individual score 2 (and ensemble score
1) run returns a completed record carrying the percentage. -/
theorem C10_witness :
    ensemble_run true 0
        [{ final_code := some "s1", final_score := some 0 },
         { final_code := some "s2", final_score := some 1 }]
        "avg" demoImplEval demoRefinedRaw
      = .error "ZeroDivisionError: float division by zero"
    ∧ ∃ r, ensemble_run true 0
        [{ final_code := some "s1", final_score := some 2 },
         { final_code := some "s2", final_score := some 4 }]
        "avg" demoImplEval demoRefinedRaw
      = .ok (.completed r)
        ∧ r.best_ensemble_score = some 1
        ∧ r.improvement_percentage = some |((1 : ℚ) - 2) / 2 * 100|
        ∧ r.ensemble_improved = some (betterThan true 1 2) :=
  ⟨C10_improvement_percentage.1 true 0
      [{ final_code := some "s1", final_score := some 0 },
       { final_code := some "s2", final_score := some 1 }]
      "avg" demoImplEval demoRefinedRaw 1 (by decide) (by decide) (by decide),
   C10_improvement_percentage.2 true 0
      [{ final_code := some "s1", final_score := some 2 },
       { final_code := some "s2", final_score := some 4 }]
      "avg" demoImplEval demoRefinedRaw 1 2 (by decide) (by decide) (by decide)
      (by decide)⟩

end ApexML
